import Mathlib

/-!
# Verification of the rossum-hooks searchable-PDF pipeline

Shallow embedding of the core pipeline shared by
`src/searchable_pdf/searchable_pdf.py` (abbreviated SP below) and
`src/document_attachment_consolidation/document_attachment_consolidation.py`
(abbreviated DAC below):

* a JSON value model and the cursor-pagination aggregation loop of
  `ApiClient.get`;
* the page-chunking helper `chunked_ranges` and the page assembler
  `build_page_data_list` of both hooks;
* the per-token overlay placement computation of `create_ocr_overlay_pdf`
  (numeric quantities are idealized as rationals; the source uses Python
  floats);
* the relation-reconciliation flows (`handle_existing_relation` /
  `create_or_update_relation` and the surrounding handler code), modelled as
  explicit transformers of an abstract store state together with the emitted
  trace of API calls.
-/

/-- A JSON value, as handled by the Python hooks (dicts are modelled as
association lists with first-match lookup; Python dicts cannot hold duplicate
keys). -/
inductive Json where
  | null
  | bool (b : Bool)
  | num (n : Int)
  | str (s : String)
  | arr (xs : List Json)
  | obj (fields : List (String × Json))

/-- Python `response.get(key, dflt)`.  Lookup on a non-dict value returns the
default here; in Python it would raise `AttributeError`, a case that never
arises in the modelled flows because every lookup is guarded by a dict-shape
check or by the documented endpoint contract. -/
def Json.getD (j : Json) (k : String) (dflt : Json) : Json :=
  match j with
  | .obj fields =>
    match fields.find? (fun kv => kv.1 == k) with
    | some kv => kv.2
    | none => dflt
  | _ => dflt

/-- The JSON list underlying a value, when it is a list.  Python
`list.extend` would raise `TypeError` on a non-iterable argument; the model
signals that with `none`. -/
def Json.asList? : Json → Option (List Json)
  | .arr xs => some xs
  | _ => none

/-- Python truthiness of a JSON value (`while url:` tests). -/
def Json.truthy : Json → Bool
  | .null => false
  | .bool b => b
  | .num n => n != 0
  | .str s => s != ""
  | .arr xs => !xs.isEmpty
  | .obj fields => !fields.isEmpty

/-- The paginated-shape test of `ApiClient.get` (DAC lines 71-72):
`isinstance(response, dict) and "results" in response and "pagination" in
response`. -/
def Json.isPagShape : Json → Bool
  | .obj fields =>
    (fields.any (fun kv => kv.1 == "results")) && (fields.any (fun kv => kv.1 == "pagination"))
  | _ => false

/-- The `next` cursor of a paginated response:
`response.get("pagination", {}).get("next")` (DAC line 74). -/
def Json.nextCursor (j : Json) : Json :=
  (j.getD "pagination" (Json.obj [])).getD "next" Json.null

/-- The `results` page of a paginated response, `response.get("results", [])`,
as a list when it is one. -/
def Json.resultsOf (j : Json) : Option (List Json) :=
  (j.getD "results" (Json.arr [])).asList?

/-- The `while url:` loop of `ApiClient.get` (DAC lines 69-77).  The external
server is modelled as the finite trace of responses it returns to the
successive requests the loop issues; each iteration consumes the next
response.  `none` means the loop did not finish within the trace (the cursor
chain is longer than the supplied trace) or that `results.extend` was applied
to a non-list (`TypeError` in Python). -/
def apiGetLoop : List Json → List Json → Option Json
  | [], _ => none
  | response :: rest, results =>
    if response.isPagShape then
      match response.resultsOf with
      | some items =>
        if (Json.nextCursor response).truthy then
          apiGetLoop rest (results ++ items)
        else
          some (Json.arr (results ++ items))
      | none => none
    else some response

/-- Model of `ApiClient.get` from DAC (lines 60-78), with the url construction from
`endpoint`/`id_`/`query_params` abstracted into the response trace: the loop
starts with the constructed (non-empty, hence truthy) url and an empty
accumulator. -/
def ApiClient_get (responses : List Json) : Option Json :=
  apiGetLoop responses []

/-- The `results` list of a paginated response, defaulting to `[]`. -/
def pagResults (j : Json) : List Json :=
  j.resultsOf.getD []

/-- The response traces covered by the first part of claim C4: every response is of
the paginated shape with a list under `results`; every response but the last
carries a truthy `next` cursor and the last a falsy (absent/null) one. -/
def PagTraceB : List Json → Bool
  | [] => false
  | [r] => r.isPagShape && r.resultsOf.isSome && !(Json.nextCursor r).truthy
  | r :: rest => r.isPagShape && r.resultsOf.isSome && (Json.nextCursor r).truthy && PagTraceB rest

theorem apiGetLoop_pagTrace (rs : List Json) :
    PagTraceB rs = true → ∀ acc : List Json,
      apiGetLoop rs acc = some (Json.arr (acc ++ rs.flatMap pagResults)) := by
  induction rs with
  | nil => intro h; simp [PagTraceB] at h
  | cons r rest ih =>
    intro h acc
    cases rest with
    | nil =>
      simp only [PagTraceB, Bool.and_eq_true, Bool.not_eq_true'] at h
      obtain ⟨⟨hshape, hsome⟩, hnext⟩ := h
      cases hres : r.resultsOf with
      | none => rw [hres] at hsome; simp at hsome
      | some items =>
        simp [apiGetLoop, hshape, hres, hnext, pagResults]
    | cons r2 rest2 =>
      simp only [PagTraceB, Bool.and_eq_true] at h
      obtain ⟨⟨⟨hshape, hsome⟩, hnext⟩, htail⟩ := h
      cases hres : r.resultsOf with
      | none => rw [hres] at hsome; simp at hsome
      | some items =>
        rw [apiGetLoop]
        simp only [hshape, hres, hnext, if_true]
        rw [ih htail (acc ++ items)]
        simp [pagResults, hres]

/-- C4: for every response trace in which each response has the paginated
shape with results lists and the last cursor is null/absent, `ApiClient.get`
returns the concatenation of all results lists in original order and the loop
terminates (a result is produced within the trace); for every first response
not of the paginated shape, that response is returned as-is, non-aggregated. -/
theorem apiGet_aggregates :
    (∀ rs : List Json, PagTraceB rs = true →
        ApiClient_get rs = some (Json.arr (rs.flatMap pagResults)))
    ∧ (∀ (r : Json) (rest : List Json), r.isPagShape = false →
        ApiClient_get (r :: rest) = some r) := by
  constructor
  · intro rs h
    have := apiGetLoop_pagTrace rs h []
    simpa [ApiClient_get] using this
  · intro r rest h
    simp [ApiClient_get, apiGetLoop, h]

/-- A paginated response carrying ten numbered results starting at `s`, with
the given `next` cursor (the three-linked-pages scenario from the spec). -/
def pageOfTen (s : Int) (next : Json) : Json :=
  Json.obj [("results", Json.arr ((List.range 10).map (fun k => Json.num (s + k)))),
            ("pagination", Json.obj [("next", next)])]

/-- Concrete trace for the C4 witness: three linked pages of 10 results each,
the last with a null cursor. -/
def traceC4 : List Json :=
  [pageOfTen 0 (Json.str "page2"), pageOfTen 10 (Json.str "page3"), pageOfTen 20 Json.null]

theorem apiGet_aggregates_witness :
    PagTraceB traceC4 = true
    ∧ ApiClient_get traceC4 = some (Json.arr (traceC4.flatMap pagResults))
    ∧ (traceC4.flatMap pagResults).length = 30 := by
  refine ⟨rfl, apiGet_aggregates.1 traceC4 rfl, rfl⟩

/-- Python `range(start, stop, step)` for a positive step, element count
`ceil((stop-start)/step)`; the helper below materializes the elements. -/
def pyRangeAux (start step : Nat) : Nat → List Nat
  | 0 => []
  | k + 1 => start :: pyRangeAux (start + step) step k

/-- Python `range(start, stop, step)` for a positive `step` (the source only
uses `step = chunk_size = 20`); for `step = 0` Python raises `ValueError`,
modelled as the empty list. -/
def pyRange (start stop step : Nat) : List Nat :=
  pyRangeAux start step ((stop - start + step - 1) / step)

/-- The chunking helper `chunked_ranges` defined inside `build_page_data_list`
(SP lines 90-96, DAC lines 174-175):
`[list(range(i, min(i + chunk_size, n + 1))) for i in range(1, n + 1, chunk_size)]`.
`list(range(a, b))` is `List.range' a (b - a)`. -/
def chunked_ranges (n chunk_size : Nat) : List (List Nat) :=
  (pyRange 1 (n + 1) chunk_size).map
    (fun i => List.range' i (min (i + chunk_size) (n + 1) - i))

theorem pyRange_eq_nil {start stop step : Nat} (h : stop ≤ start) :
    pyRange start stop step = [] := by
  unfold pyRange
  have hz : stop - start = 0 := Nat.sub_eq_zero_of_le h
  rw [hz]
  rcases Nat.eq_zero_or_pos step with hs | hs
  · subst hs; rfl
  · have : (0 + step - 1) / step = 0 := by
      apply Nat.div_eq_of_lt; omega
    rw [this]
    rfl

theorem pyRange_eq_cons {start stop step : Nat} (hlt : start < stop) (hs : 0 < step) :
    pyRange start stop step = start :: pyRange (start + step) stop step := by
  unfold pyRange
  have hcount : (stop - start + step - 1) / step = (stop - (start + step) + step - 1) / step + 1 := by
    set d := stop - start with hd
    have hd1 : 1 ≤ d := by omega
    have hsub : stop - (start + step) = d - step := by omega
    rw [hsub]
    rcases le_or_lt d step with hds | hds
    · have h1 : d - step = 0 := by omega
      rw [h1]
      have h2 : (0 + step - 1) / step = 0 := by apply Nat.div_eq_of_lt; omega
      rw [h2]
      have h3 : d + step - 1 = (d - 1) + step := by omega
      rw [h3, Nat.add_div_right _ hs]
      have : (d - 1) / step = 0 := by apply Nat.div_eq_of_lt; omega
      omega
    · have h1 : d - step + step - 1 = (d - step - 1) + step := by omega
      have h3 : d + step - 1 = (d - 1) + step := by omega
      rw [h1, h3, Nat.add_div_right _ hs, Nat.add_div_right _ hs]
      have h4 : d - 1 = (d - step - 1) + step := by omega
      rw [h4, Nat.add_div_right _ hs]
  rw [hcount]
  rfl

theorem chunked_ranges_join_aux (cs : Nat) (hcs : 0 < cs) :
    ∀ fuel start stop, stop - start ≤ fuel →
      ((pyRange start stop cs).map
          (fun i => List.range' i (min (i + cs) stop - i))).flatten
        = List.range' start (stop - start) := by
  intro fuel
  induction fuel with
  | zero =>
    intro start stop h
    have hle : stop ≤ start := by omega
    rw [pyRange_eq_nil hle]
    have : stop - start = 0 := by omega
    simp [this]
  | succ n ih =>
    intro start stop h
    rcases Nat.lt_or_ge start stop with hlt | hge
    · rw [pyRange_eq_cons hlt hcs]
      have hrec : stop - (start + cs) ≤ n := by omega
      rw [List.map_cons, List.flatten_cons, ih (start + cs) stop hrec]
      rcases le_or_lt (start + cs) stop with hcase | hcase
      · have hmin : min (start + cs) stop = start + cs := by omega
        rw [hmin]
        have h1 : start + cs - start = cs := by omega
        rw [h1]
        have h2 : start + cs = start + cs := rfl
        have := List.range'_append_1 start cs (stop - (start + cs))
        rw [this]
        congr 1
        omega
      · have hmin : min (start + cs) stop = stop := by omega
        rw [hmin]
        have hz : stop - (start + cs) = 0 := by omega
        rw [hz]
        simp
    · rw [pyRange_eq_nil hge]
      have : stop - start = 0 := by omega
      simp [this]

/-- C8: `chunked_ranges` partitions the 1-based page range into contiguous
chunks of at most `20` numbers, in increasing order with no gaps or overlaps
(their concatenation is exactly `1..n` in order), and pages `1..45` yield
exactly the chunks `[1..20], [21..40], [41..45]`. -/
theorem chunked_ranges_partitions :
    (∀ n : Nat, (chunked_ranges n 20).flatten = List.range' 1 n
      ∧ (chunked_ranges n 20).Forall (fun c => c.length ≤ 20))
    ∧ chunked_ranges 45 20 = [List.range' 1 20, List.range' 21 20, List.range' 41 5] := by
  refine ⟨fun n => ⟨?_, ?_⟩, by decide⟩
  · have := chunked_ranges_join_aux 20 (by omega) (n + 1) 1 (n + 1) (by omega)
    unfold chunked_ranges
    rw [this]
    congr 1
  · rw [List.forall_iff_forall_mem]
    intro c hc
    unfold chunked_ranges at hc
    rw [List.mem_map] at hc
    obtain ⟨i, _, hci⟩ := hc
    rw [← hci, List.length_range']
    omega

/-- Page image, pixel size, and OCR data for one page (`PageData` dataclass of
both hooks).  Raster bytes are opaque (`content`), `size` is the
`(width, height)` pair, `ocr_data` the per-page `items` value of the OCR
response. -/
structure PageData where
  content : String
  size : Int × Int
  ocr_data : Json

/-- The one source annotation consumed by the SP variant of `build_page_data_list`:
its url and the ordered list of page urls (`annotation["pages"]`). -/
structure SpAnnot where
  url : String
  pages : List String

/-- External server behaviour consumed by the SP variant of `build_page_data_list`:
`ocrResults url chunk` is the `results` list of
`GET url/page_data?granularity=lines&page_numbers=chunk`; `pageContent` and
`pageSize` are the raster bytes and `(width, height)` metadata of a page
url. -/
structure SpEnv where
  ocrResults : String → List Nat → List Json
  pageContent : String → String
  pageSize : String → Int × Int

/-- The per-page OCR values the SP variant of `build_page_data_list` accumulates
(lines 98-111): for each chunk, the `items` value of each entry of the
`results` list of the response, concatenated in chunk order. -/
def spOcrPages (env : SpEnv) (ann : SpAnnot) : List Json :=
  (chunked_ranges ann.pages.length 20).flatMap
    (fun chunk => (env.ocrResults ann.url chunk).map (fun c => c.getD "items" (Json.arr [])))

/-- The SP variant of `build_page_data_list` (lines 84-131): chunked OCR fetch, the
page-count assert (lines 113-116, `AssertionError` modelled as
`Except.error`), then one `PageData` per page url zipped with the OCR page of
the same index. -/
def build_page_data_list_sp (env : SpEnv) (ann : SpAnnot) : Except String (List PageData) :=
  let ocr_data_pages := spOcrPages env ann
  if ann.pages.length = ocr_data_pages.length then
    Except.ok (ann.pages.enum.map (fun p =>
      { content := env.pageContent p.2, size := env.pageSize p.2,
        ocr_data := ocr_data_pages.getD p.1 (Json.arr []) }))
  else
    Except.error "Page count mismatch"

/-- One source annotation consumed by the DAC variant of `build_page_data_list`: its id
(used in the `annotations/{id}/page_data` request) and ordered page urls. -/
structure DacAnnot where
  id : Nat
  pages : List String

/-- External server behaviour consumed by the DAC variant of `build_page_data_list`. -/
structure DacEnv where
  ocrResults : Nat → List Nat → List Json
  pageContent : String → String
  pageSize : String → Int × Int

/-- The per-page OCR values the DAC variant of `build_page_data_list` accumulates for one
annotation (lines 183-194): for each chunk, the `items` value of each entry of
the `results` list of the response, concatenated in chunk order. -/
def dacOcrPages (env : DacEnv) (ann : DacAnnot) : List Json :=
  (chunked_ranges ann.pages.length 20).flatMap
    (fun chunk => (env.ocrResults ann.id chunk).map (fun c => c.getD "items" (Json.arr [])))

/-- The accumulation loop of the DAC variant of `build_page_data_list` (lines 177-203):
per annotation, extend `page_urls` with its pages and `ocr_pages` with its OCR
pages, asserting the per-annotation page count (lines 197-200,
`AssertionError` modelled as `Except.error`). -/
def dacCollect (env : DacEnv) : List DacAnnot → Except String (List String × List Json)
  | [] => Except.ok ([], [])
  | ann :: rest =>
    let current := dacOcrPages env ann
    if ann.pages.length = current.length then
      match dacCollect env rest with
      | Except.ok pr => Except.ok (ann.pages ++ pr.1, current ++ pr.2)
      | Except.error e => Except.error e
    else
      Except.error "Page count mismatch"

/-- The DAC variant of `build_page_data_list` (lines 170-213): the accumulation loop, then
`zip(ocr_pages, page_urls)` turned into `PageData` records (lines 205-213). -/
def build_page_data_list_dac (env : DacEnv) (anns : List DacAnnot) :
    Except String (List PageData) :=
  match dacCollect env anns with
  | Except.error e => Except.error e
  | Except.ok pr =>
    Except.ok ((pr.2.zip pr.1).map (fun oc =>
      { content := env.pageContent oc.2, size := env.pageSize oc.2, ocr_data := oc.1 }))

theorem dacCollect_ok (env : DacEnv) :
    ∀ anns pr, dacCollect env anns = Except.ok pr →
      pr.1 = anns.flatMap (fun a => a.pages)
      ∧ pr.2 = anns.flatMap (fun a => dacOcrPages env a)
      ∧ ∀ a ∈ anns, a.pages.length = (dacOcrPages env a).length := by
  intro anns
  induction anns with
  | nil =>
    intro pr h
    simp only [dacCollect] at h
    cases h
    simp
  | cons ann rest ih =>
    intro pr h
    simp only [dacCollect] at h
    by_cases hlen : ann.pages.length = (dacOcrPages env ann).length
    · rw [if_pos hlen] at h
      cases hrec : dacCollect env rest with
      | error e => rw [hrec] at h; cases h
      | ok pr2 =>
        rw [hrec] at h
        cases h
        obtain ⟨h1, h2, h3⟩ := ih pr2 hrec
        refine ⟨by simp [h1], by simp [h2], ?_⟩
        intro a ha
        rcases List.mem_cons.mp ha with rfl | ha2
        · exact hlen
        · exact h3 a ha2
    · rw [if_neg hlen] at h
      cases h

theorem dacCollect_error (env : DacEnv) :
    ∀ anns (a : DacAnnot), a ∈ anns → a.pages.length ≠ (dacOcrPages env a).length →
      ∃ e, dacCollect env anns = Except.error e := by
  intro anns
  induction anns with
  | nil => intro a ha; cases ha
  | cons ann rest ih =>
    intro a ha hne
    rcases List.mem_cons.mp ha with rfl | ha2
    · refine ⟨"Page count mismatch", ?_⟩
      simp only [dacCollect]
      rw [if_neg hne]
    · by_cases hlen : ann.pages.length = (dacOcrPages env ann).length
      · obtain ⟨e, he⟩ := ih a ha2 hne
        refine ⟨e, ?_⟩
        simp only [dacCollect]
        rw [if_pos hlen, he]
      · refine ⟨"Page count mismatch", ?_⟩
        simp only [dacCollect]
        rw [if_neg hlen]

theorem dacCollect_total (env : DacEnv) :
    ∀ anns, (∀ a ∈ anns, a.pages.length = (dacOcrPages env a).length) →
      ∃ pr, dacCollect env anns = Except.ok pr := by
  intro anns
  induction anns with
  | nil => intro _; exact ⟨([], []), rfl⟩
  | cons ann rest ih =>
    intro h
    obtain ⟨pr, hpr⟩ := ih (fun a ha => h a (List.mem_cons_of_mem _ ha))
    refine ⟨(ann.pages ++ pr.1, dacOcrPages env ann ++ pr.2), ?_⟩
    simp only [dacCollect]
    rw [if_pos (h ann (List.mem_cons_self _ _)), hpr]

/-- C5: in both variants of `build_page_data_list`, a mismatch between the number
of declared page locations and the number of OCR pages retrieved across all
chunks always raises the consistency assert (modelled as `Except.error`),
never returning a truncated or padded page list; when every count matches, no
such error is raised and a full-length list is returned. -/
theorem page_count_mismatch_errors :
    (∀ (env : SpEnv) (ann : SpAnnot),
        ann.pages.length ≠ (spOcrPages env ann).length →
          build_page_data_list_sp env ann = Except.error "Page count mismatch")
    ∧ (∀ (env : SpEnv) (ann : SpAnnot),
        ann.pages.length = (spOcrPages env ann).length →
          ∃ l, build_page_data_list_sp env ann = Except.ok l
            ∧ l.length = ann.pages.length)
    ∧ (∀ (env : DacEnv) (anns : List DacAnnot) (a : DacAnnot), a ∈ anns →
        a.pages.length ≠ (dacOcrPages env a).length →
          ∃ e, build_page_data_list_dac env anns = Except.error e)
    ∧ (∀ (env : DacEnv) (anns : List DacAnnot),
        (∀ a ∈ anns, a.pages.length = (dacOcrPages env a).length) →
          ∃ l, build_page_data_list_dac env anns = Except.ok l) := by
  refine ⟨?_, ?_, ?_, ?_⟩
  · intro env ann hne
    simp only [build_page_data_list_sp]
    rw [if_neg hne]
  · intro env ann heq
    have hb : build_page_data_list_sp env ann
        = Except.ok (ann.pages.enum.map (fun p =>
            { content := env.pageContent p.2, size := env.pageSize p.2,
              ocr_data := (spOcrPages env ann).getD p.1 (Json.arr []) })) := by
      simp only [build_page_data_list_sp]
      rw [if_pos heq]
    exact ⟨_, hb, by simp [List.enum]⟩
  · intro env anns a ha hne
    obtain ⟨e, he⟩ := dacCollect_error env anns a ha hne
    refine ⟨e, ?_⟩
    simp only [build_page_data_list_dac]
    rw [he]
  · intro env anns h
    obtain ⟨pr, hpr⟩ := dacCollect_total env anns h
    refine ⟨(pr.2.zip pr.1).map (fun oc =>
      { content := env.pageContent oc.2, size := env.pageSize oc.2, ocr_data := oc.1 }), ?_⟩
    simp only [build_page_data_list_dac]
    rw [hpr]

/-- Concrete inputs for the C5 witness: an OCR side-channel that returns no
results at all (count mismatch) and one that returns exactly one entry per
requested page number (counts match). -/
def envC5sp : SpEnv :=
  { ocrResults := fun _ _ => [], pageContent := fun _ => "", pageSize := fun _ => (0, 0) }

def annC5 : SpAnnot := { url := "a", pages := ["p1"] }

def envC5dac : DacEnv :=
  { ocrResults := fun _ chunk => chunk.map (fun _ => Json.obj []),
    pageContent := fun _ => "", pageSize := fun _ => (0, 0) }

def annsC5 : List DacAnnot := [{ id := 1, pages := ["p1", "p2"] }]

theorem page_count_mismatch_errors_witness :
    build_page_data_list_sp envC5sp annC5 = Except.error "Page count mismatch"
    ∧ (∃ l, build_page_data_list_dac envC5dac annsC5 = Except.ok l) := by
  refine ⟨page_count_mismatch_errors.1 envC5sp annC5 (by decide), ?_⟩
  exact page_count_mismatch_errors.2.2.2 envC5dac annsC5 (by decide)

/-- C6: whenever assembly succeeds, the DAC variant of `build_page_data_list` returns the
page records of all documents in input order, pages within each document in
declared order, each record pairing the page url with the OCR page of the same
global index, and its length is the sum of the declared page counts; the SP
(single-document) version likewise returns one record per declared page, in
order, indexed against the OCR page of the same index. -/
theorem assembler_output :
    (∀ (env : DacEnv) (anns : List DacAnnot) (l : List PageData),
        build_page_data_list_dac env anns = Except.ok l →
          l = ((anns.flatMap (fun a => dacOcrPages env a)).zip
                  (anns.flatMap (fun a => a.pages))).map
                (fun oc => { content := env.pageContent oc.2, size := env.pageSize oc.2,
                             ocr_data := oc.1 })
          ∧ l.length = (anns.map (fun a => a.pages.length)).sum)
    ∧ (∀ (env : SpEnv) (ann : SpAnnot) (l : List PageData),
        build_page_data_list_sp env ann = Except.ok l →
          l.length = ann.pages.length
          ∧ ∀ i, i < l.length →
              l.getD i { content := "", size := (0, 0), ocr_data := Json.null }
                = { content := env.pageContent (ann.pages.getD i ""),
                    size := env.pageSize (ann.pages.getD i ""),
                    ocr_data := (spOcrPages env ann).getD i (Json.arr []) }) := by
  constructor
  · intro env anns l hok
    simp only [build_page_data_list_dac] at hok
    cases hcol : dacCollect env anns with
    | error e => rw [hcol] at hok; cases hok
    | ok pr =>
      rw [hcol] at hok
      cases hok
      obtain ⟨h1, h2, h3⟩ := dacCollect_ok env anns pr hcol
      constructor
      · rw [h1, h2]
      · rw [List.length_map, List.length_zip, h1, h2]
        have hlen : (anns.flatMap (fun a => dacOcrPages env a)).length
            = (anns.map (fun a => a.pages.length)).sum := by
          rw [List.flatMap_def, List.length_flatten, List.map_map]
          congr 1
          apply List.map_congr_left
          intro a ha
          exact (h3 a ha).symm
        have hlen2 : (anns.flatMap (fun a => a.pages)).length
            = (anns.map (fun a => a.pages.length)).sum := by
          rw [List.flatMap_def, List.length_flatten, List.map_map]
          rfl
        omega
  · intro env ann l hok
    simp only [build_page_data_list_sp] at hok
    by_cases heq : ann.pages.length = (spOcrPages env ann).length
    · rw [if_pos heq] at hok
      cases hok
      constructor
      · simp [List.enum]
      · intro i hi
        simp only [List.length_map, List.enum, List.enumFrom_length] at hi
        simp [List.getD_eq_getElem?_getD, List.getElem?_map, List.enum,
          List.getElem?_enumFrom, List.getElem?_eq_getElem hi]
    · rw [if_neg heq] at hok
      cases hok

/-- Concrete inputs for the C6 witness: two documents with two and one pages,
an OCR side-channel returning one entry per requested page number. -/
def envC6 : DacEnv :=
  { ocrResults := fun _ chunk => chunk.map (fun _ => Json.obj []),
    pageContent := fun _ => "", pageSize := fun _ => (0, 0) }

def annsC6 : List DacAnnot := [{ id := 1, pages := ["u1", "u2"] }, { id := 2, pages := ["u3"] }]

def pagesC6 : List PageData :=
  [{ content := "", size := (0, 0), ocr_data := Json.arr [] },
   { content := "", size := (0, 0), ocr_data := Json.arr [] },
   { content := "", size := (0, 0), ocr_data := Json.arr [] }]

theorem assembler_output_witness :
    build_page_data_list_dac envC6 annsC6 = Except.ok pagesC6
    ∧ pagesC6.length = (annsC6.map (fun a => a.pages.length)).sum :=
  ⟨rfl, (assembler_output.1 envC6 annsC6 pagesC6 rfl).2⟩

/-- The transform computed for one drawn token in `create_ocr_overlay_pdf`
(identical in SP lines 159-196 and DAC lines 241-278): the translation,
scales, baseline, and vertical adjustment applied around the `drawString`
call.  Python floats are idealized as rationals. -/
structure OverlayPlacement where
  translate_x : Rat
  x_scale : Rat
  y_scale : Rat
  y_baseline : Rat
  vertical_adjustment : Rat
deriving DecidableEq

/-- Per-token placement computation of `create_ocr_overlay_pdf` for a token
with bounding box `position = (x0, y0, x1, y1)`, measured natural text width
`text_width` (the `c.stringWidth` result), on a page of the given pixel
`height`:
`box_width = x1 - x0`, `box_height = y1 - y0`,
`x_scale = box_width / text_width if text_width else 1`,
`y_scale = box_height / base_font_size`, `y_baseline = height - y1`,
`vertical_adjustment = base_font_size * vertical_adjustment_factor`, and the
drawing translates to `(x0, y_baseline)`.  Defaults in the source are
`base_font_size = 10` and `vertical_adjustment_factor = 0.2`. -/
def tokenPlacement (position : Rat × Rat × Rat × Rat) (text_width height : Rat)
    (base_font_size vertical_adjustment_factor : Rat) : OverlayPlacement :=
  match position with
  | (x0, y0, x1, y1) =>
    let box_width := x1 - x0
    let box_height := y1 - y0
    let x_scale := if text_width ≠ 0 then box_width / text_width else 1
    let y_scale := box_height / base_font_size
    let y_baseline := height - y1
    let vertical_adjustment := base_font_size * vertical_adjustment_factor
    { translate_x := x0, x_scale := x_scale, y_scale := y_scale,
      y_baseline := y_baseline, vertical_adjustment := vertical_adjustment }

/-- C7: for every drawn token, the renderer computes
`y_baseline = height - y1`, `y_scale = (y1 - y0) / base_font_size` and, when
the natural text width is positive, `x_scale = (x1 - x0) / text_width`; in
particular bbox `(10, 20, 60, 40)` on a page of height `200` with base font
size `10` and natural text width `25` gives `y_baseline = 160`,
`y_scale = 2` and `x_scale = 2`. -/
theorem token_transform :
    (∀ x0 y0 x1 y1 text_width height : Rat, 0 < text_width →
        (tokenPlacement (x0, y0, x1, y1) text_width height 10 (1/5)).y_baseline
            = height - y1
        ∧ (tokenPlacement (x0, y0, x1, y1) text_width height 10 (1/5)).y_scale
            = (y1 - y0) / 10
        ∧ (tokenPlacement (x0, y0, x1, y1) text_width height 10 (1/5)).x_scale
            = (x1 - x0) / text_width)
    ∧ tokenPlacement (10, 20, 60, 40) 25 200 10 (1/5)
        = { translate_x := 10, x_scale := 2, y_scale := 2, y_baseline := 160,
            vertical_adjustment := 2 } := by
  constructor
  · intro x0 y0 x1 y1 text_width height htw
    refine ⟨rfl, rfl, ?_⟩
    simp only [tokenPlacement]
    rw [if_pos (by exact ne_of_gt htw)]
  · simp only [tokenPlacement]
    rw [if_pos (by norm_num)]
    norm_num

theorem token_transform_witness :
    (0 : Rat) < 25
    ∧ (tokenPlacement (10, 20, 60, 40) 25 200 10 (1/5)).y_baseline = 200 - 40
    ∧ (tokenPlacement (10, 20, 60, 40) 25 200 10 (1/5)).x_scale = (60 - 10) / 25 := by
  have h := token_transform.1 10 20 60 40 25 200 (by norm_num)
  exact ⟨by norm_num, h.1, h.2.2⟩

/-- C9: for every token whose measured natural text width is `0`, the scale
computation takes the guarded branch and sets `x_scale = 1`, so no division by
zero is performed for any bounding box, page height, or renderer options. -/
theorem zero_width_guard :
    ∀ (position : Rat × Rat × Rat × Rat) (height base_font_size vaf : Rat),
      (tokenPlacement position 0 height base_font_size vaf).x_scale = 1 := by
  intro position height base_font_size vaf
  obtain ⟨x0, y0, x1, y1⟩ := position
  simp [tokenPlacement]

/-- One `document_relation` record in the external store: numeric id, key,
annotation identity, and the ordered list of referenced document urls. -/
structure RelationRec where
  id : Nat
  key : String
  annot : String
  documents : List String
deriving DecidableEq

/-- Abstract external store state for the reconciliation flows: the relation
records, the live document urls (in upload order), and the id the next
created relation receives. -/
structure Store where
  relations : List RelationRec
  documents : List String
  nextId : Nat
deriving DecidableEq

/-- One API call issued by a reconciliation flow, in issue order. -/
inductive ApiEvent where
  | uploadDocument (url : String)
  | deleteDocument (url : String)
  | patchRelation (id : Nat) (documents : List String)
  | createRelation (key annot : String) (documents : List String)
deriving DecidableEq

/-- Model of `GET document_relations?key=..&annotation=..`: the relations of the store
filtered by `(key, annotation)`, in store order. -/
def Store.findRelations (st : Store) (key annot : String) : List RelationRec :=
  st.relations.filter (fun r => r.key == key && r.annot == annot)

/-- Model of `POST documents`: the uploaded url becomes live. -/
def Store.uploadDocument (st : Store) (url : String) : Store :=
  { st with documents := st.documents ++ [url] }

/-- Model of a `DELETE` of a document: the url is no longer live. -/
def Store.deleteDocument (st : Store) (url : String) : Store :=
  { st with documents := st.documents.filter (fun d => d != url) }

/-- Model of `PATCH document_relations/{id}` with body `{documents: ds}`. -/
def Store.patchRelation (st : Store) (rid : Nat) (ds : List String) : Store :=
  let f := fun (r : RelationRec) => if r.id == rid then { r with documents := ds } else r
  { st with relations := st.relations.map f }

/-- Model of `POST document_relations`: a fresh relation appended to the store. -/
def Store.createRelation (st : Store) (key annot : String) (ds : List String) : Store :=
  { st with
    relations := st.relations ++ [{ id := st.nextId, key := key, annot := annot, documents := ds }],
    nextId := st.nextId + 1 }

/-- Model of the SP function `handle_existing_relation` (lines 242-261): retrieve the relation by
id; if its `documents` list is non-empty, delete `documents[0]`; upload the
new PDF; patch the `documents` field of the relation to the new url.  Returns the new
store and the trace of API calls.  Retrieval of an id absent from the store
would be a transport error in the source (404); it is modelled as a no-op and
is unreachable from the hook flow. -/
def handle_existing_relation (st : Store) (relationId : Nat) (newUrl : String) :
    Store × List ApiEvent :=
  match st.relations.find? (fun r => r.id == relationId) with
  | none => (st, [])
  | some rel =>
    match rel.documents with
    | [] =>
      let st2 := (st.uploadDocument newUrl).patchRelation rel.id [newUrl]
      (st2, [ApiEvent.uploadDocument newUrl, ApiEvent.patchRelation rel.id [newUrl]])
    | d :: _ =>
      let st2 := ((st.deleteDocument d).uploadDocument newUrl).patchRelation rel.id [newUrl]
      (st2, [ApiEvent.deleteDocument d, ApiEvent.uploadDocument newUrl,
             ApiEvent.patchRelation rel.id [newUrl]])

/-- The reconciliation portion of the SP handler `rossum_hook_request_handler`
(lines 44-68): `find_document_relation` takes the first `(key, annotation)`
match; on a match, `handle_existing_relation` runs; otherwise the new PDF is
uploaded and a fresh relation of type `export` referencing it is created. -/
def reconcile_sp (st : Store) (key annot newUrl : String) : Store × List ApiEvent :=
  match (st.findRelations key annot).head? with
  | some r0 => handle_existing_relation st r0.id newUrl
  | none =>
    let st2 := (st.uploadDocument newUrl).createRelation key annot [newUrl]
    (st2, [ApiEvent.uploadDocument newUrl, ApiEvent.createRelation key annot [newUrl]])

/-- Model of the DAC method `ApiClient.create_or_update_relation` (lines 109-130): look up the
`(key, annotation)` relations; if none, create one referencing the already
uploaded document; otherwise patch the first match to `[document.url]` and
then, if it previously referenced documents, delete the document behind
`documents[0]` (the id parsed from the url is modelled as the referenced
document itself). -/
def create_or_update_relation (st : Store) (documentUrl : String) (annot key : String) :
    Store × List ApiEvent :=
  match (st.findRelations key annot).head? with
  | none =>
    (st.createRelation key annot [documentUrl],
     [ApiEvent.createRelation key annot [documentUrl]])
  | some existing =>
    let st1 := st.patchRelation existing.id [documentUrl]
    match existing.documents with
    | [] => (st1, [ApiEvent.patchRelation existing.id [documentUrl]])
    | d :: _ =>
      (st1.deleteDocument d,
       [ApiEvent.patchRelation existing.id [documentUrl], ApiEvent.deleteDocument d])

/-- The reconciliation portion of the DAC handler `rossum_hook_request_handler`
(lines 160-165): `upload_document` first, then `create_or_update_relation`. -/
def reconcile_dac (st : Store) (key annot newUrl : String) : Store × List ApiEvent :=
  let st1 := st.uploadDocument newUrl
  let (st2, evs) := create_or_update_relation st1 newUrl annot key
  (st2, ApiEvent.uploadDocument newUrl :: evs)

def isDeleteEvent : ApiEvent → Bool
  | .deleteDocument _ => true
  | _ => false

def isUpdateEvent : ApiEvent → Bool
  | .patchRelation _ _ => true
  | _ => false

/-- Some document deletion occurs strictly before some relation update in the
trace (the ordering that the Reconciler contract of the spec forbids). -/
def deleteBeforeUpdate : List ApiEvent → Bool
  | [] => false
  | e :: rest => (isDeleteEvent e && rest.any isUpdateEvent) || deleteBeforeUpdate rest

/-- Well-formedness of the modelled store: relation ids are distinct. -/
def WFids (st : Store) : Prop :=
  (st.relations.map (fun r => r.id)).Nodup

theorem head?_some_mem {α : Type} {l : List α} {a : α} (h : l.head? = some a) : a ∈ l := by
  cases l with
  | nil => cases h
  | cons x xs =>
    simp only [List.head?] at h
    cases h
    exact List.mem_cons_self _ _

theorem head?_filter_props {st : Store} {key annot : String} {ex : RelationRec}
    (h : (st.findRelations key annot).head? = some ex) :
    ex ∈ st.relations ∧ ex.key = key ∧ ex.annot = annot := by
  have hmem := head?_some_mem h
  rw [Store.findRelations, List.mem_filter] at hmem
  obtain ⟨h1, h2⟩ := hmem
  simp only [Bool.and_eq_true, beq_iff_eq] at h2
  exact ⟨h1, h2.1, h2.2⟩

theorem find?_eq_of_nodup_ids :
    ∀ (l : List RelationRec) (ex : RelationRec),
      (l.map (fun r => r.id)).Nodup → ex ∈ l →
      l.find? (fun r => r.id == ex.id) = some ex := by
  intro l
  induction l with
  | nil => intro ex _ hm; cases hm
  | cons r rs ih =>
    intro ex hnd hmem
    simp only [List.map_cons, List.nodup_cons] at hnd
    rcases List.mem_cons.mp hmem with rfl | hmem2
    · exact List.find?_cons_of_pos _ (by simp)
    · have hne : (r.id == ex.id) = false := by
        rw [beq_eq_false_iff_ne]
        intro he
        exact hnd.1 (he ▸ List.mem_map_of_mem (fun r => r.id) hmem2)
      rw [List.find?_cons_of_neg _ (by simp [hne]), ih ex hnd.2 hmem2]

theorem findRelations_patch (st : Store) (rid : Nat) (ds : List String) (key annot : String) :
    (st.patchRelation rid ds).findRelations key annot
      = (st.findRelations key annot).map
          (fun r => if r.id == rid then { r with documents := ds } else r) := by
  simp only [Store.patchRelation, Store.findRelations, List.filter_map]
  congr 1
  apply List.filter_congr
  intro r _
  by_cases h : r.id = rid <;> simp [h]

theorem findRelations_upload (st : Store) (u key annot : String) :
    (st.uploadDocument u).findRelations key annot = st.findRelations key annot := rfl

theorem findRelations_delete (st : Store) (u key annot : String) :
    (st.deleteDocument u).findRelations key annot = st.findRelations key annot := rfl

/-- Concrete store for claim C1: one existing relation for `("k", "a")` with a
non-empty previous document list `["old"]`, the document being live. -/
def stC1 : Store :=
  { relations := [{ id := 0, key := "k", annot := "a", documents := ["old"] }],
    documents := ["old"], nextId := 1 }

/-- C1 counterexample: in the Match path of the searchable_pdf hook, with an
existing relation whose previous document list is the non-empty `["old"]`,
a document deletion occurs strictly before the relation update in the emitted
call trace — the claimed update-then-delete ordering is violated (the trace is
delete, upload, patch). -/
theorem update_order_counterexample :
    (stC1.findRelations "k" "a").head?
        = some { id := 0, key := "k", annot := "a", documents := ["old"] }
    ∧ (reconcile_sp stC1 "k" "a" "new").2
        = [ApiEvent.deleteDocument "old", ApiEvent.uploadDocument "new",
           ApiEvent.patchRelation 0 ["new"]]
    ∧ deleteBeforeUpdate (reconcile_sp stC1 "k" "a" "new").2 = true := by
  refine ⟨by decide, by decide, by decide⟩

/-- C1 amended: on the Match → Replace path with a non-empty previous
document list, the reconciler of the consolidation hook updates the relation
before deleting the previously referenced document (trace upload, patch,
delete — no deletion precedes the update), while the reconciler of the searchable_pdf
hook deletes the first previously referenced document before uploading
and updating (trace delete, upload, patch). -/
theorem update_order_amended :
    ∀ (st : Store) (key annot url : String) (ex : RelationRec),
      WFids st → (st.findRelations key annot).head? = some ex → ex.documents ≠ [] →
      (reconcile_dac st key annot url).2
          = [ApiEvent.uploadDocument url, ApiEvent.patchRelation ex.id [url],
             ApiEvent.deleteDocument (ex.documents.headD "")]
      ∧ deleteBeforeUpdate (reconcile_dac st key annot url).2 = false
      ∧ (reconcile_sp st key annot url).2
          = [ApiEvent.deleteDocument (ex.documents.headD ""), ApiEvent.uploadDocument url,
             ApiEvent.patchRelation ex.id [url]]
      ∧ deleteBeforeUpdate (reconcile_sp st key annot url).2 = true := by
  intro st key annot url ex hwf hfind hne
  obtain ⟨d, ds, hdocs⟩ : ∃ d ds, ex.documents = d :: ds := by
    cases hd : ex.documents with
    | nil => exact absurd hd hne
    | cons d ds => exact ⟨d, ds, rfl⟩
  obtain ⟨hmem, hkey, hannot⟩ := head?_filter_props hfind
  have hfound : st.relations.find? (fun r => r.id == ex.id) = some ex :=
    find?_eq_of_nodup_ids st.relations ex hwf hmem
  have hdac : (reconcile_dac st key annot url).2
      = [ApiEvent.uploadDocument url, ApiEvent.patchRelation ex.id [url],
         ApiEvent.deleteDocument d] := by
    simp only [reconcile_dac, create_or_update_relation, findRelations_upload, hfind, hdocs]
  have hsp : (reconcile_sp st key annot url).2
      = [ApiEvent.deleteDocument d, ApiEvent.uploadDocument url,
         ApiEvent.patchRelation ex.id [url]] := by
    simp only [reconcile_sp, hfind, handle_existing_relation, hfound, hdocs]
  rw [hdac, hsp, hdocs]
  refine ⟨rfl, rfl, rfl, rfl⟩

theorem update_order_amended_witness :
    deleteBeforeUpdate (reconcile_dac stC1 "k" "a" "new").2 = false
    ∧ deleteBeforeUpdate (reconcile_sp stC1 "k" "a" "new").2 = true := by
  have h := update_order_amended stC1 "k" "a" "new"
    { id := 0, key := "k", annot := "a", documents := ["old"] }
    (by unfold WFids; decide) (by decide) (by decide)
  exact ⟨h.2.1, h.2.2.2⟩

/-- Concrete store for claim C2: one existing relation for `("k", "a")`
referencing two live documents `d1` and `d2`. -/
def stC2 : Store :=
  { relations := [{ id := 0, key := "k", annot := "a", documents := ["d1", "d2"] }],
    documents := ["d1", "d2"], nextId := 1 }

/-- C2 counterexample: with an existing relation referencing two documents,
both reconciliation flows delete only `documents[0]`; the second previously
referenced document `d2` is still live afterwards, contradicting the claim
that no previously referenced document location remains live. -/
theorem delete_all_previous_counterexample :
    (stC2.findRelations "k" "a").head?
        = some { id := 0, key := "k", annot := "a", documents := ["d1", "d2"] }
    ∧ "d2" ∈ (reconcile_sp stC2 "k" "a" "new").1.documents
    ∧ "d2" ∈ (reconcile_dac stC2 "k" "a" "new").1.documents := by
  exact ⟨by decide, by decide, by decide⟩

/-- C2 amended: a successful reconciliation over an existing relation with
previous document list `d :: ds` updates the document list of the relation to
exactly the reference of the new artifact and deletes only the first previously
referenced document `d`, which is no longer live; previously referenced
documents beyond the first that were live and distinct from `d` remain live
in the store.  Holds for the flows of both hooks. -/
theorem delete_first_previous :
    ∀ (st : Store) (key annot url d : String) (ds : List String) (ex : RelationRec),
      WFids st → (st.findRelations key annot).head? = some ex →
      ex.documents = d :: ds → url ≠ d →
      (((reconcile_sp st key annot url).1.findRelations key annot).head?
            = some { ex with documents := [url] }
        ∧ d ∉ (reconcile_sp st key annot url).1.documents
        ∧ url ∈ (reconcile_sp st key annot url).1.documents
        ∧ (∀ x ∈ ds, x ≠ d → x ∈ st.documents →
              x ∈ (reconcile_sp st key annot url).1.documents))
      ∧ (((reconcile_dac st key annot url).1.findRelations key annot).head?
            = some { ex with documents := [url] }
        ∧ d ∉ (reconcile_dac st key annot url).1.documents
        ∧ url ∈ (reconcile_dac st key annot url).1.documents
        ∧ (∀ x ∈ ds, x ≠ d → x ∈ st.documents →
              x ∈ (reconcile_dac st key annot url).1.documents)) := by
  intro st key annot url d ds ex hwf hfind hdocs hurl
  obtain ⟨hmem, hkey, hannot⟩ := head?_filter_props hfind
  have hfound : st.relations.find? (fun r => r.id == ex.id) = some ex :=
    find?_eq_of_nodup_ids st.relations ex hwf hmem
  have hspSt : (reconcile_sp st key annot url).1
      = (((st.deleteDocument d).uploadDocument url).patchRelation ex.id [url]) := by
    simp only [reconcile_sp, hfind, handle_existing_relation, hfound, hdocs]
  have hdacSt : (reconcile_dac st key annot url).1
      = (((st.uploadDocument url).patchRelation ex.id [url]).deleteDocument d) := by
    simp only [reconcile_dac, create_or_update_relation, findRelations_upload, hfind, hdocs]
  have hpatched :
      ∀ st' : Store, st'.findRelations key annot = st.findRelations key annot →
        ((st'.patchRelation ex.id [url]).findRelations key annot).head?
          = some { ex with documents := [url] } := by
    intro st' hsame
    rw [findRelations_patch, hsame, List.head?_map, hfind]
    simp
  constructor
  · refine ⟨?_, ?_, ?_, ?_⟩
    · rw [hspSt]
      exact hpatched _ rfl
    · rw [hspSt]
      simp only [Store.patchRelation, Store.uploadDocument, Store.deleteDocument]
      simp [List.mem_filter, hurl.symm]
    · rw [hspSt]
      simp only [Store.patchRelation, Store.uploadDocument, Store.deleteDocument]
      simp
    · intro x hx hxd hxlive
      rw [hspSt]
      simp only [Store.patchRelation, Store.uploadDocument, Store.deleteDocument]
      simp [List.mem_filter, hxlive, hxd]
  · refine ⟨?_, ?_, ?_, ?_⟩
    · rw [hdacSt]
      have : ((st.uploadDocument url).patchRelation ex.id [url]).findRelations key annot
          = (((st.uploadDocument url).patchRelation ex.id [url]).deleteDocument d).findRelations
              key annot := rfl
      rw [← this]
      exact hpatched _ rfl
    · rw [hdacSt]
      simp only [Store.patchRelation, Store.uploadDocument, Store.deleteDocument]
      simp [List.mem_filter]
    · rw [hdacSt]
      simp only [Store.patchRelation, Store.uploadDocument, Store.deleteDocument]
      simp [List.mem_filter, hurl]
    · intro x hx hxd hxlive
      rw [hdacSt]
      simp only [Store.patchRelation, Store.uploadDocument, Store.deleteDocument]
      simp [List.mem_filter, hxlive, hxd]

theorem delete_first_previous_witness :
    ((reconcile_sp stC2 "k" "a" "new").1.findRelations "k" "a").head?
        = some { id := 0, key := "k", annot := "a", documents := ["new"] }
    ∧ "d1" ∉ (reconcile_sp stC2 "k" "a" "new").1.documents
    ∧ "d2" ∈ (reconcile_dac stC2 "k" "a" "new").1.documents := by
  have h := delete_first_previous stC2 "k" "a" "new" "d1" ["d2"]
    { id := 0, key := "k", annot := "a", documents := ["d1", "d2"] }
    (by unfold WFids; decide) (by decide) (by decide) (by decide)
  exact ⟨h.1.1, h.1.2.1, h.2.2.2.2 "d2" (by decide) (by decide) (by decide)⟩

/-- Two successive runs of the SP reconciliation for the same `(key, annot)`,
with artifact urls `a` then `b`. -/
def twiceSp (st : Store) (key annot a b : String) : Store :=
  (reconcile_sp (reconcile_sp st key annot a).1 key annot b).1

/-- Two successive runs of the DAC reconciliation for the same `(key, annot)`,
with artifact urls `a` then `b`. -/
def twiceDac (st : Store) (key annot a b : String) : Store :=
  (reconcile_dac (reconcile_dac st key annot a).1 key annot b).1

/-- C3: starting from a store with no relation for `(key, annot)` (and with
well-formed relation ids), reconciling twice with distinct artifacts `a` then
`b` leaves exactly one relation for the pair, its document list exactly
`[b]`, with the storage location of `a` deleted and `b` live — for the flows
of both hooks. -/
theorem reconcile_converges :
    ∀ (st : Store) (key annot a b : String),
      st.findRelations key annot = [] → a ≠ b →
      (∀ r ∈ st.relations, r.id < st.nextId) →
      ((twiceSp st key annot a b).findRelations key annot
          = [{ id := st.nextId, key := key, annot := annot, documents := [b] }]
        ∧ a ∉ (twiceSp st key annot a b).documents
        ∧ b ∈ (twiceSp st key annot a b).documents)
      ∧ ((twiceDac st key annot a b).findRelations key annot
          = [{ id := st.nextId, key := key, annot := annot, documents := [b] }]
        ∧ a ∉ (twiceDac st key annot a b).documents
        ∧ b ∈ (twiceDac st key annot a b).documents) := by
  intro st key annot a b hempty hab hids
  have hempty' : st.relations.filter (fun r => r.key == key && r.annot == annot) = [] := hempty
  have h1sp : (reconcile_sp st key annot a).1
      = (st.uploadDocument a).createRelation key annot [a] := by
    simp only [reconcile_sp, hempty, List.head?_nil]
  have h1dac : (reconcile_dac st key annot a).1
      = (st.uploadDocument a).createRelation key annot [a] := by
    simp only [reconcile_dac, create_or_update_relation, findRelations_upload, hempty,
      List.head?_nil]
  have hfind2 : ((st.uploadDocument a).createRelation key annot [a]).findRelations key annot
      = [{ id := st.nextId, key := key, annot := annot, documents := [a] }] := by
    simp only [Store.findRelations, Store.createRelation, Store.uploadDocument,
      List.filter_append, hempty']
    simp
  have hfound2 : ((st.uploadDocument a).createRelation key annot [a]).relations.find?
        (fun r => r.id == st.nextId)
      = some { id := st.nextId, key := key, annot := annot, documents := [a] } := by
    simp only [Store.createRelation, Store.uploadDocument]
    rw [List.find?_append]
    have hnone : st.relations.find? (fun r => r.id == st.nextId) = none := by
      rw [List.find?_eq_none]
      intro x hx
      simp only [beq_iff_eq]
      exact Nat.ne_of_lt (hids x hx)
    rw [hnone]
    simp
  have hsp2 : (reconcile_sp ((st.uploadDocument a).createRelation key annot [a]) key annot b).1
      = ((((st.uploadDocument a).createRelation key annot [a]).deleteDocument
            a).uploadDocument b).patchRelation st.nextId [b] := by
    simp only [reconcile_sp, hfind2, List.head?_cons, handle_existing_relation, hfound2]
  have hdac2 : (reconcile_dac ((st.uploadDocument a).createRelation key annot [a]) key annot b).1
      = ((((st.uploadDocument a).createRelation key annot [a]).uploadDocument
            b).patchRelation st.nextId [b]).deleteDocument a := by
    simp only [reconcile_dac, create_or_update_relation, findRelations_upload, hfind2,
      List.head?_cons]
  constructor
  · rw [show twiceSp st key annot a b
        = (reconcile_sp (reconcile_sp st key annot a).1 key annot b).1 from rfl, h1sp, hsp2]
    refine ⟨?_, ?_, ?_⟩
    · rw [findRelations_patch]
      rw [show ((((st.uploadDocument a).createRelation key annot [a]).deleteDocument
            a).uploadDocument b).findRelations key annot
          = ((st.uploadDocument a).createRelation key annot [a]).findRelations key annot
          from rfl, hfind2]
      simp
    · rw [show (((((st.uploadDocument a).createRelation key annot [a]).deleteDocument
            a).uploadDocument b).patchRelation st.nextId [b]).documents
          = ((st.documents ++ [a]).filter (fun d => d != a)) ++ [b] from rfl]
      simp [List.mem_filter, hab]
    · rw [show (((((st.uploadDocument a).createRelation key annot [a]).deleteDocument
            a).uploadDocument b).patchRelation st.nextId [b]).documents
          = ((st.documents ++ [a]).filter (fun d => d != a)) ++ [b] from rfl]
      simp
  · rw [show twiceDac st key annot a b
        = (reconcile_dac (reconcile_dac st key annot a).1 key annot b).1 from rfl, h1dac, hdac2]
    refine ⟨?_, ?_, ?_⟩
    · rw [show ((((((st.uploadDocument a).createRelation key annot [a]).uploadDocument
            b).patchRelation st.nextId [b]).deleteDocument a).findRelations key annot)
          = ((((st.uploadDocument a).createRelation key annot [a]).uploadDocument
            b).patchRelation st.nextId [b]).findRelations key annot from rfl]
      rw [findRelations_patch, findRelations_upload, hfind2]
      simp
    · rw [show (((((st.uploadDocument a).createRelation key annot [a]).uploadDocument
            b).patchRelation st.nextId [b]).deleteDocument a).documents
          = (st.documents ++ [a] ++ [b]).filter (fun d => d != a) from rfl]
      simp [List.mem_filter]
    · rw [show (((((st.uploadDocument a).createRelation key annot [a]).uploadDocument
            b).patchRelation st.nextId [b]).deleteDocument a).documents
          = (st.documents ++ [a] ++ [b]).filter (fun d => d != a) from rfl]
      simp [List.mem_filter, Ne.symm hab]

/-- Concrete empty store for the C3 witness. -/
def stC3 : Store := { relations := [], documents := [], nextId := 0 }

theorem reconcile_converges_witness :
    (twiceSp stC3 "k" "a" "A" "B").findRelations "k" "a"
        = [{ id := 0, key := "k", annot := "a", documents := ["B"] }]
    ∧ "A" ∉ (twiceSp stC3 "k" "a" "A" "B").documents
    ∧ (twiceDac stC3 "k" "a" "A" "B").findRelations "k" "a"
        = [{ id := 0, key := "k", annot := "a", documents := ["B"] }] := by
  have h := reconcile_converges stC3 "k" "a" "A" "B" (by decide) (by decide) (by decide)
  exact ⟨h.1.1, h.1.2.1, h.2.1⟩

/-- C10: when the previous document list of the existing relation is empty (or the
field is absent, modelled as the empty list), both reconciliation flows
delete nothing — the emitted trace contains no delete call and the live
documents change only by the upload — and still complete, uploading the new
artifact and updating the document list of the relation to exactly the new
reference. -/
theorem empty_previous_documents :
    ∀ (st : Store) (key annot url : String) (ex : RelationRec),
      WFids st → (st.findRelations key annot).head? = some ex → ex.documents = [] →
      ((reconcile_sp st key annot url).2.any isDeleteEvent = false
        ∧ (reconcile_sp st key annot url).1.documents = st.documents ++ [url]
        ∧ ((reconcile_sp st key annot url).1.findRelations key annot).head?
            = some { ex with documents := [url] })
      ∧ ((reconcile_dac st key annot url).2.any isDeleteEvent = false
        ∧ (reconcile_dac st key annot url).1.documents = st.documents ++ [url]
        ∧ ((reconcile_dac st key annot url).1.findRelations key annot).head?
            = some { ex with documents := [url] }) := by
  intro st key annot url ex hwf hfind hdocs
  obtain ⟨hmem, hkey, hannot⟩ := head?_filter_props hfind
  have hfound : st.relations.find? (fun r => r.id == ex.id) = some ex :=
    find?_eq_of_nodup_ids st.relations ex hwf hmem
  have hsp : reconcile_sp st key annot url
      = ((st.uploadDocument url).patchRelation ex.id [url],
         [ApiEvent.uploadDocument url, ApiEvent.patchRelation ex.id [url]]) := by
    simp only [reconcile_sp, hfind, handle_existing_relation, hfound, hdocs]
  have hdac : reconcile_dac st key annot url
      = ((st.uploadDocument url).patchRelation ex.id [url],
         [ApiEvent.uploadDocument url, ApiEvent.patchRelation ex.id [url]]) := by
    simp only [reconcile_dac, create_or_update_relation, findRelations_upload, hfind, hdocs]
  have hhead : (((st.uploadDocument url).patchRelation ex.id [url]).findRelations
        key annot).head? = some { ex with documents := [url] } := by
    rw [findRelations_patch, findRelations_upload, List.head?_map, hfind]
    simp
  rw [hsp, hdac]
  exact ⟨⟨rfl, rfl, hhead⟩, ⟨rfl, rfl, hhead⟩⟩

/-- Concrete store for the C10 witness: the existing relation for
`("k", "a")` has an empty document list. -/
def stC10 : Store :=
  { relations := [{ id := 7, key := "k", annot := "a", documents := [] }],
    documents := ["live"], nextId := 8 }

theorem empty_previous_documents_witness :
    (reconcile_sp stC10 "k" "a" "new").2.any isDeleteEvent = false
    ∧ (reconcile_sp stC10 "k" "a" "new").1.documents = ["live", "new"]
    ∧ (reconcile_dac stC10 "k" "a" "new").2.any isDeleteEvent = false := by
  have h := empty_previous_documents stC10 "k" "a" "new"
    { id := 7, key := "k", annot := "a", documents := [] }
    (by unfold WFids; decide) (by decide) (by decide)
  exact ⟨h.1.1, h.1.2.1, h.2.1⟩
